import Mathlib

/-!
Shallow embedding of the record model of `ankisync/anki_db.py`: the custom
peewee field codecs (`TagField`, `JSONField`, `ListField`) and the pre-save
hooks of the `Notes`, `Cards` and `Revlog` tables.

Python strings manipulated character by character by the codecs are modelled
as `List Char`.  External collaborators (HTML stripping, the content
checksum, `json.dumps` / `json.loads`, the random guid generator `guid64`
and the clock) are parameters of the functions that call them.  Database
table snapshots are modelled by the column lists the hooks actually
consult (`id` lists, and `id`/`guid` rows for the Note table).
-/

namespace AnkiDb

/-- SQL `MAX(id)` over a table snapshot of ids, as consulted by
`model_class.select(pv.fn.Max(model_class.id)).scalar()`:
`none` on an empty table (SQL `NULL`). -/
def listMax : List Int → Option Int
  | [] => none
  | x :: xs =>
    match listMax xs with
    | none => some x
    | some m => some (if x ≤ m then m else x)

/-- The id-allocation `while` loop shared verbatim by `notes_pre_save`,
`cards_pre_save` and `revlog_pre_save`:

`while get_or_none(id=cand) is not None: cand = Max(id).scalar() + 1`.

The loop is modelled with explicit fuel, one unit per membership check;
`none` models a run that did not reach a collision-free id within the fuel
(or the crash `None + 1` that the source would hit if `Max` returned SQL
`NULL`, which membership makes impossible). -/
def allocate_loop (ids : List Int) : Nat → Int → Option Int
  | 0, _ => none
  | fuel + 1, cand =>
    if cand ∈ ids then
      match listMax ids with
      | none => none
      | some m => allocate_loop ids fuel (m + 1)
    else some cand

/-! ## Note table and `notes_pre_save` -/

/-- The columns of a Note row consulted by the uniqueness checks of
`notes_pre_save` (`get_or_none(id=...)` and `get_or_none(guid=...)`). -/
structure NoteRow where
  id : Int
  guid : String
deriving DecidableEq

def noteIds (table : List NoteRow) : List Int := table.map NoteRow.id

def noteGuids (table : List NoteRow) : List String := table.map NoteRow.guid

/-- In-memory `Notes` record (the peewee model instance). -/
structure Note where
  id : Int
  guid : String
  mid : Int
  mod : Int
  usn : Int
  tags : List String
  flds : List String
  sfld : String
  csum : Int
  flags : Int
  data : String
deriving DecidableEq

/-- The guid-regeneration `while` loop of `notes_pre_save`:

`while get_or_none(guid=instance.guid) is not None: instance.guid = guid64()`.

`stream k` is the value of the `k`-th call to the random generator
`guid64`; the loop is modelled with explicit fuel, one unit per membership
check. -/
def guid_loop (guids : List String) (stream : Nat → String) :
    Nat → Nat → String → Option String
  | 0, _, _ => none
  | fuel + 1, k, g =>
    if g ∈ guids then guid_loop guids stream fuel (k + 1) (stream k)
    else some g

/-- `notes_pre_save(model_class, instance, created)`: allocate `id`,
regenerate `guid` while taken, stamp `mod`, recompute `sfld` from
`flds[0]` and `csum` from `sfld`.

`strip` models `stripHTMLMedia`, `checksum` models `field_checksum`,
`now` the value of `int(time() * 1000)`, `stream` the successive values
of `guid64()`.  `none` models a crashing run (fuel exhausted in a loop,
or an `IndexError` on `instance.flds[0]` when `flds` is empty). -/
def notes_pre_save (strip : String → String) (checksum : String → Int)
    (now : Int) (stream : Nat → String) (fuel : Nat)
    (table : List NoteRow) (inst : Note) : Option Note :=
  match allocate_loop (noteIds table) fuel inst.id with
  | none => none
  | some newId =>
    match guid_loop (noteGuids table) stream fuel 0 inst.guid with
    | none => none
    | some newGuid =>
      match inst.flds with
      | [] => none
      | f0 :: _ =>
        some { inst with
               id := newId
               guid := newGuid
               mod := now
               sfld := strip f0
               csum := checksum (strip f0) }

/-! ## Card table and `cards_pre_save` -/

/-- In-memory `Cards` record.  `due` is `Option Int`: `none` models the
Python attribute value `None` (field left unset by the caller). -/
structure Card where
  id : Int
  nid : Int
  did : Int
  ord : Int
  mod : Int
  usn : Int
  type : Int
  queue : Int
  due : Option Int
  ivl : Int
  factor : Int
  reps : Int
  lapses : Int
  left : Int
  odue : Int
  odid : Int
  flags : Int
  data : String
deriving DecidableEq

/-- `cards_pre_save(model_class, instance, created)`: allocate `id`,
stamp `mod` with `int(time())`, and default `due` to `instance.nid`
exactly when `instance.due is None`. -/
def cards_pre_save (now : Int) (fuel : Nat) (ids : List Int)
    (inst : Card) : Option Card :=
  match allocate_loop ids fuel inst.id with
  | none => none
  | some newId =>
    some { inst with
           id := newId
           mod := now
           due := match inst.due with
                  | none => some inst.nid
                  | some d => some d }

/-! ## Revlog table and `revlog_pre_save` -/

/-- In-memory `Revlog` record. -/
structure RevlogEntry where
  id : Int
  cid : Int
  usn : Int
  ease : Int
  ivl : Int
  lastIvl : Int
  factor : Int
  time : Int
  type : Int
deriving DecidableEq

/-- `revlog_pre_save(model_class, instance, created)`: the id-allocation
loop and nothing else. -/
def revlog_pre_save (fuel : Nat) (ids : List Int)
    (inst : RevlogEntry) : Option RevlogEntry :=
  match allocate_loop ids fuel inst.id with
  | none => none
  | some newId => some { inst with id := newId }

/-! ## String codecs: `TagField` and `ListField`

Python `str` values are modelled as `List Char` so that `join`, `split`
and `strip` are meaningful. -/

/-- A Python string, as a list of characters. -/
abbrev PyStr := List Char

/-- Python `sep.join(value)` for a one-character separator. -/
def pyJoin (sep : Char) : List PyStr → PyStr
  | [] => []
  | [x] => x
  | x :: y :: rest => x ++ sep :: pyJoin sep (y :: rest)

/-- Python `s.split(sep)` for a one-character separator: the pieces between
occurrences of `sep`; the empty string splits into `[""]`. -/
def pySplit (sep : Char) : PyStr → List PyStr
  | [] => [[]]
  | c :: cs =>
    if c = sep then [] :: pySplit sep cs
    else (c :: (pySplit sep cs).headI) :: (pySplit sep cs).tail

/-- Python `str.isspace` on a single character: the characters removed by
`str.strip()`. -/
def pyIsSpace (c : Char) : Bool :=
  decide ((9 ≤ c.toNat ∧ c.toNat ≤ 13) ∨ (28 ≤ c.toNat ∧ c.toNat ≤ 32) ∨
    c.toNat = 133 ∨ c.toNat = 160 ∨ c.toNat = 5760 ∨
    (8192 ≤ c.toNat ∧ c.toNat ≤ 8202) ∨ c.toNat = 8232 ∨ c.toNat = 8233 ∨
    c.toNat = 8239 ∨ c.toNat = 8287 ∨ c.toNat = 12288)

/-- Python `s.strip()`: drop leading and trailing whitespace. -/
def pyStrip (s : PyStr) : PyStr :=
  ((s.dropWhile pyIsSpace).reverse.dropWhile pyIsSpace).reverse

/-- `TagField.db_value(value)`: `' '.join(value)`. -/
def TagField.db_value (value : List PyStr) : PyStr :=
  pyJoin ' ' value

/-- `TagField.python_value(value)`: `value.strip().split(' ')`. -/
def TagField.python_value (value : PyStr) : List PyStr :=
  pySplit ' ' (pyStrip value)

/-- The unit-separator character `'\u001f'`. -/
def usep : Char := '\x1f'

/-- `ListField.db_value(value)`: `'\u001f'.join(value)` when `value` is
truthy (a non-empty list), otherwise the implicit `None`. -/
def ListField.db_value (value : List PyStr) : Option PyStr :=
  if value = [] then none else some (pyJoin usep value)

/-- `ListField.python_value(value)`: `value.split('\u001f')`. -/
def ListField.python_value (value : PyStr) : List PyStr :=
  pySplit usep value

/-! ## JSON values and `JSONField`

In-memory JSON-compatible Python values (the contents of the `conf`,
`models`, `decks`, `dconf` and `tags` columns before serialization). -/

mutual
inductive JVal where
  | null : JVal
  | bool : Bool → JVal
  | num : Int → JVal
  | str : String → JVal
  | arr : JList → JVal
  | obj : JFields → JVal
inductive JList where
  | nil : JList
  | cons : JVal → JList → JList
inductive JFields where
  | fnil : JFields
  | fcons : String → JVal → JFields → JFields
end

deriving instance DecidableEq for JVal
deriving instance DecidableEq for JList
deriving instance DecidableEq for JFields

/-- Python `d[key]` on a dict (with `key in d.keys()` as the `some` case). -/
def lookupKey : JFields → String → Option JVal
  | .fnil, _ => none
  | .fcons k v rest, key => if k = key then some v else lookupKey rest key

/-- The value scanned by `JSONField.db_value` for one top-level entry:
`v2['name']` when `isinstance(v2, dict)` and `'name' in v2.keys()`,
nothing otherwise. -/
def extractName : JVal → Option JVal
  | .obj fs => lookupKey fs "name"
  | _ => none

/-- The duplicate-name scan of `JSONField.db_value`: iterate the top-level
values in order keeping the `all_names` set (modelled as the list `seen`),
raising `ValueError('Duplicate name: ...')` on the first repeat. -/
def checkNames : List JVal → List JVal → Except String Unit
  | _, [] => .ok ()
  | seen, v :: rest =>
    match extractName v with
    | some n =>
      if n ∈ seen then .error "Duplicate name"
      else checkNames (n :: seen) rest
    | none => checkNames seen rest

/-- `JSONField.db_value(value)`: run the duplicate-name scan over
`value.values()`, then `json.dumps(value)`.  `dumps` models the external
`json.dumps`; the top-level dict is modelled as an association list in
insertion order. -/
def JSONField.db_value (dumps : List (String × JVal) → String)
    (value : List (String × JVal)) : Except String String :=
  match checkNames [] (value.map Prod.snd) with
  | .error e => .error e
  | .ok _ => .ok (dumps value)

/-- `JSONField.python_value(value)`: `json.loads(value)`, with `loads`
modelling the external `json.loads`. -/
def JSONField.python_value (loads : String → List (String × JVal))
    (value : String) : List (String × JVal) :=
  loads value

/-! ## Concrete records used by the witnesses -/

/-- A concrete in-memory note: id 1, guid `"g"`, one field `"x"`. -/
def sampleNote : Note :=
  { id := 1, guid := "g", mid := 0, mod := 0, usn := -1, tags := [],
    flds := ["x"], sfld := "", csum := 0, flags := 0, data := "" }

/-- `sampleNote` as saved by `notes_pre_save` against an empty table with
clock value 5, identity `strip`, constant-0 `checksum` and guid stream
constantly `"h"`. -/
def sampleNoteSaved : Note :=
  { id := 1, guid := "g", mid := 0, mod := 5, usn := -1, tags := [],
    flds := ["x"], sfld := "x", csum := 0, flags := 0, data := "" }

/-- `sampleNote` as re-saved by `notes_pre_save` against a table already
holding its own row `(id 1, guid "g")`, with clock value 100, identity
`strip`, constant-0 `checksum` and guid stream constantly `"h"`. -/
def sampleNoteResaved : Note :=
  { id := 2, guid := "h", mid := 0, mod := 100, usn := -1, tags := [],
    flds := ["x"], sfld := "x", csum := 0, flags := 0, data := "" }

/-- A concrete card with `due` unset and `nid = 12345`. -/
def sampleCard : Card :=
  { id := 1, nid := 12345, did := 1, ord := 0, mod := 0, usn := -1,
    type := 0, queue := 0, due := none, ivl := 0, factor := 0, reps := 0,
    lapses := 0, left := 0, odue := 0, odid := 0, flags := 0, data := "" }

/-- `sampleCard` as saved by `cards_pre_save` against an empty table with
clock value 7. -/
def sampleCardSaved : Card :=
  { id := 1, nid := 12345, did := 1, ord := 0, mod := 7, usn := -1,
    type := 0, queue := 0, due := some 12345, ivl := 0, factor := 0,
    reps := 0, lapses := 0, left := 0, odue := 0, odid := 0, flags := 0,
    data := "" }

/-- A concrete review-log entry. -/
def sampleRev : RevlogEntry :=
  { id := 3, cid := 21, usn := -1, ease := 2, ivl := 4, lastIvl := 1,
    factor := 2500, time := 6000, type := 1 }

/-- A concrete namespaced-object collection with two distinctly named
embedded objects. -/
def sampleModels : List (String × JVal) :=
  [("1", JVal.obj (JFields.fcons "name" (JVal.str "Basic") JFields.fnil)),
    ("2", JVal.obj (JFields.fcons "name" (JVal.str "Cloze") JFields.fnil))]

/-- A concrete namespaced-object collection whose two embedded objects
share the name `"Basic"`. -/
def dupModels : List (String × JVal) :=
  [("1", JVal.obj (JFields.fcons "name" (JVal.str "Basic") JFields.fnil)),
    ("2", JVal.obj (JFields.fcons "name" (JVal.str "Basic") JFields.fnil))]

/-! ## Lemmas about the identifier allocator -/

theorem listMax_eq_none {ids : List Int} : listMax ids = none ↔ ids = [] := by
  cases ids with
  | nil => simp [listMax]
  | cons y ys => rw [listMax]; cases listMax ys <;> simp

theorem listMax_le {x : Int} : ∀ {ids : List Int} (m : Int), x ∈ ids →
    listMax ids = some m → x ≤ m := by
  intro ids
  induction ids with
  | nil => intro m h; cases h
  | cons y ys ih =>
    intro m hx hm
    rw [listMax] at hm
    cases hys : listMax ys with
    | none =>
      rw [hys] at hm
      injection hm with hm
      cases hx with
      | head => omega
      | tail _ hx => rw [listMax_eq_none] at hys; subst hys; cases hx
    | some m2 =>
      rw [hys] at hm
      injection hm with hm
      cases hx with
      | head => split at hm <;> omega
      | tail _ hx =>
        have := ih m2 hx hys
        split at hm <;> omega

theorem listMax_isSome {x : Int} {ids : List Int} (hx : x ∈ ids) :
    ∃ m, listMax ids = some m := by
  cases h : listMax ids with
  | none => rw [listMax_eq_none] at h; subst h; cases hx
  | some m => exact ⟨m, rfl⟩

theorem succ_listMax_not_mem {ids : List Int} {m : Int}
    (hm : listMax ids = some m) : m + 1 ∉ ids := by
  intro hmem
  have := listMax_le m hmem hm
  omega

theorem allocate_loop_sound {ids : List Int} {fuel : Nat} {cand r : Int}
    (h : allocate_loop ids fuel cand = some r) :
    r ∉ ids ∧ (cand ∉ ids → r = cand) ∧
      (cand ∈ ids → ∃ m, listMax ids = some m ∧ r = m + 1) := by
  cases fuel with
  | zero => exact absurd h (by simp [allocate_loop])
  | succ fuel =>
    rw [allocate_loop] at h
    by_cases hc : cand ∈ ids
    · rw [if_pos hc] at h
      obtain ⟨m, hm⟩ := listMax_isSome hc
      simp only [hm] at h
      have hfree := succ_listMax_not_mem hm
      cases fuel with
      | zero => exact absurd h (by simp [allocate_loop])
      | succ fuel2 =>
        rw [allocate_loop, if_neg hfree] at h
        injection h with h
        subst h
        exact ⟨hfree, fun hn => absurd hc hn, fun _ => ⟨m, hm, rfl⟩⟩
    · rw [if_neg hc] at h
      injection h with h
      subst h
      exact ⟨hc, fun _ => rfl, fun hmem => absurd hmem hc⟩

theorem allocate_loop_two (ids : List Int) (cand : Int) :
    ∃ r, allocate_loop ids 2 cand = some r := by
  show ∃ r, allocate_loop ids (Nat.succ (Nat.succ 0)) cand = some r
  by_cases hc : cand ∈ ids
  · obtain ⟨m, hm⟩ := listMax_isSome hc
    refine ⟨m + 1, ?_⟩
    rw [allocate_loop, if_pos hc]
    simp only [hm]
    rw [allocate_loop, if_neg (succ_listMax_not_mem hm)]
  · exact ⟨cand, by rw [allocate_loop, if_neg hc]⟩

/-- Claim C1: for every table snapshot of ids and every candidate, the
id-allocation loop terminates within two membership checks and returns an
id absent from the table: the candidate itself when it was free, and
otherwise `MAX(existing ids) + 1`; on the table `[5, 6, 7]` with
candidate 5 it returns 8. -/
theorem allocator_returns_fresh_id :
    (∀ (ids : List Int) (cand r : Int), allocate_loop ids 2 cand = some r →
      r ∉ ids ∧ (cand ∉ ids → r = cand) ∧
        (cand ∈ ids → ∃ m, listMax ids = some m ∧ r = m + 1)) ∧
    (∀ (ids : List Int) (cand : Int), allocate_loop ids 2 cand ≠ none) ∧
    allocate_loop [5, 6, 7] 2 5 = some 8 := by
  refine ⟨fun ids cand r h => allocate_loop_sound h, fun ids cand h => ?_, by decide⟩
  obtain ⟨r, hr⟩ := allocate_loop_two ids cand
  rw [hr] at h
  cases h

/-- Witness for C1 at the concrete table `[5, 6, 7]` and candidate 5. -/
theorem allocator_returns_fresh_id_witness :
    allocate_loop [5, 6, 7] 2 5 = some 8 ∧ (8 : Int) ∉ [5, 6, 7] ∧
      (5 : Int) ∈ [5, 6, 7] :=
  ⟨allocator_returns_fresh_id.2.2,
    (allocator_returns_fresh_id.1 [5, 6, 7] 5 8
      allocator_returns_fresh_id.2.2).1,
    by decide⟩

/-! ## Lemmas about the pre-save hooks -/

theorem guid_loop_sound {guids : List String} {stream : Nat → String} :
    ∀ {fuel k : Nat} {g r : String},
      guid_loop guids stream fuel k g = some r →
      r ∉ guids ∧ (g ∉ guids → r = g) ∧ (g ∈ guids → ∃ j, r = stream j) := by
  intro fuel
  induction fuel with
  | zero => intro k g r h; exact absurd h (by simp [guid_loop])
  | succ fuel ih =>
    intro k g r h
    rw [guid_loop] at h
    by_cases hg : g ∈ guids
    · rw [if_pos hg] at h
      obtain ⟨hr, hkeep, hgen⟩ := ih h
      refine ⟨hr, fun hn => absurd hg hn, fun _ => ?_⟩
      by_cases hs : stream k ∈ guids
      · exact hgen hs
      · exact ⟨k, hkeep hs⟩
    · rw [if_neg hg] at h
      injection h with h
      subst h
      exact ⟨hg, fun _ => rfl, fun hmem => absurd hmem hg⟩

theorem notes_pre_save_eq {strip : String → String} {checksum : String → Int}
    {now : Int} {stream : Nat → String} {fuel : Nat} {table : List NoteRow}
    {inst r : Note}
    (h : notes_pre_save strip checksum now stream fuel table inst = some r) :
    ∃ newId newGuid f0 rest,
      allocate_loop (noteIds table) fuel inst.id = some newId ∧
      guid_loop (noteGuids table) stream fuel 0 inst.guid = some newGuid ∧
      inst.flds = f0 :: rest ∧
      r = { inst with
            id := newId
            guid := newGuid
            mod := now
            sfld := strip f0
            csum := checksum (strip f0) } := by
  cases ha : allocate_loop (noteIds table) fuel inst.id with
  | none => simp only [notes_pre_save, ha] at h; exact Option.noConfusion h
  | some newId =>
    cases hg : guid_loop (noteGuids table) stream fuel 0 inst.guid with
    | none => simp only [notes_pre_save, ha, hg] at h; exact Option.noConfusion h
    | some newGuid =>
      cases hf : inst.flds with
      | nil =>
        simp only [notes_pre_save, ha, hg, hf] at h
        exact Option.noConfusion h
      | cons f0 rest =>
        simp only [notes_pre_save, ha, hg, hf, Option.some.injEq] at h
        exact ⟨newId, newGuid, f0, rest, rfl, rfl, rfl, h.symm⟩

/-- Claim C2: on every completed Note save, the hook sets `sfld` to
`strip(flds[0])` and `csum` to `checksum(sfld)`, regardless of the
caller-supplied `sfld`/`csum`; two saves (with the same external `strip`
and `checksum` collaborators) of notes whose first fields agree after
stripping store equal `csum` values. -/
theorem note_save_derives_sfld_csum :
    ∀ (strip : String → String) (checksum : String → Int) (now : Int)
      (stream : Nat → String) (fuel : Nat) (table : List NoteRow)
      (inst r : Note),
      notes_pre_save strip checksum now stream fuel table inst = some r →
      (r.sfld = strip inst.flds.headI ∧
        r.csum = checksum (strip inst.flds.headI)) ∧
      (∀ (now2 : Int) (stream2 : Nat → String) (fuel2 : Nat)
          (table2 : List NoteRow) (inst2 r2 : Note),
        notes_pre_save strip checksum now2 stream2 fuel2 table2 inst2
            = some r2 →
        strip inst.flds.headI = strip inst2.flds.headI →
        r.csum = r2.csum) := by
  intro strip checksum now stream fuel table inst r h
  obtain ⟨i1, g1, f0, rest, _, _, hf, hr⟩ := notes_pre_save_eq h
  subst hr
  constructor
  · rw [hf]
    exact ⟨rfl, rfl⟩
  · intro now2 stream2 fuel2 table2 inst2 r2 h2 heq
    obtain ⟨i2, g2, f02, rest2, _, _, hf2, hr2⟩ := notes_pre_save_eq h2
    subst hr2
    rw [hf, hf2] at heq
    simp only [List.headI_cons] at heq
    show checksum (strip f0) = checksum (strip f02)
    rw [heq]

/-- Witness for C2: saving `sampleNote` (first field `"x"`) against an empty
table with identity `strip` and constant-0 `checksum` stores
`sfld = "x"` and `csum = 0`. -/
theorem note_save_derives_sfld_csum_witness :
    notes_pre_save (fun s => s) (fun _ => 0) 5 (fun _ => "h") 2 []
        sampleNote = some sampleNoteSaved ∧
    sampleNoteSaved.sfld = "x" ∧ sampleNoteSaved.csum = 0 := by
  have h : notes_pre_save (fun s => s) (fun _ => 0) 5 (fun _ => "h") 2 []
      sampleNote = some sampleNoteSaved := by rfl
  have hres := note_save_derives_sfld_csum (fun s => s) (fun _ => 0) 5
    (fun _ => "h") 2 [] sampleNote sampleNoteSaved h
  exact ⟨h, hres.1.1, hres.1.2⟩

/-- Claim C3 is refuted on this input: the table's only row `(1, "g")` is
the very record being re-saved (`sampleNote` has id 1 and guid `"g"`), so
no *different* record holds guid `"g"`; the claim says such a note keeps
its guid, yet the hook stores the regenerated guid `"h"`. -/
theorem note_guid_not_kept_counterexample :
    sampleNote.id = 1 ∧ sampleNote.guid = "g" ∧
    (notes_pre_save (fun s => s) (fun _ => 0) 100 (fun _ => "h") 3
        [NoteRow.mk 1 "g"] sampleNote).map Note.guid = some "h" ∧
    "h" ≠ sampleNote.guid := by
  refine ⟨rfl, rfl, by rfl, by decide⟩

/-- Claim C3 (amended): the hook regenerates the guid while *any* record
(including the row of the note being saved) holds it, so the stored guid is
absent from the table's guid column at the instant of check — inserting the
saved row therefore never creates two rows sharing a guid — and a note
whose guid appears nowhere in the table keeps its guid. -/
theorem note_guid_fresh_amended :
    ∀ (strip : String → String) (checksum : String → Int) (now : Int)
      (stream : Nat → String) (fuel : Nat) (table : List NoteRow)
      (inst r : Note),
      notes_pre_save strip checksum now stream fuel table inst = some r →
      r.guid ∉ noteGuids table ∧
      (inst.guid ∉ noteGuids table → r.guid = inst.guid) ∧
      ((noteGuids table).Nodup → (r.guid :: noteGuids table).Nodup) := by
  intro strip checksum now stream fuel table inst r h
  obtain ⟨i1, g1, f0, rest, _, hg, _, hr⟩ := notes_pre_save_eq h
  obtain ⟨hn, hkeep, _⟩ := guid_loop_sound hg
  subst hr
  exact ⟨hn, fun hni => hkeep hni, fun hnd => List.nodup_cons.mpr ⟨hn, hnd⟩⟩

/-- Witness for the amended C3: the guid of `sampleNote`, absent from the
empty table, is kept. -/
theorem note_guid_fresh_amended_witness :
    notes_pre_save (fun s => s) (fun _ => 0) 5 (fun _ => "h") 2 []
        sampleNote = some sampleNoteSaved ∧
    sampleNoteSaved.guid ∉ noteGuids [] ∧
    sampleNoteSaved.guid = sampleNote.guid := by
  have h : notes_pre_save (fun s => s) (fun _ => 0) 5 (fun _ => "h") 2 []
      sampleNote = some sampleNoteSaved := by rfl
  have hres := note_guid_fresh_amended (fun s => s) (fun _ => 0) 5
    (fun _ => "h") 2 [] sampleNote sampleNoteSaved h
  exact ⟨h, hres.1, hres.2.1 (by simp [noteGuids])⟩

/-- Claim C8: re-saving a note whose id and guid are already present in the
table (in particular, its own row) makes both uniqueness checks match: the
hook moves the id to `MAX(existing ids) + 1` and replaces the guid with a
freshly drawn value from the random stream, different from the note's own
guid. -/
theorem note_resave_matches_itself :
    ∀ (strip : String → String) (checksum : String → Int) (now : Int)
      (stream : Nat → String) (fuel : Nat) (table : List NoteRow)
      (inst r : Note),
      notes_pre_save strip checksum now stream fuel table inst = some r →
      inst.id ∈ noteIds table →
      inst.guid ∈ noteGuids table →
      (∃ m, listMax (noteIds table) = some m ∧ r.id = m + 1) ∧
      r.guid ≠ inst.guid ∧ (∃ j, r.guid = stream j) := by
  intro strip checksum now stream fuel table inst r h hid hguid
  obtain ⟨i1, g1, f0, rest, ha, hg, _, hr⟩ := notes_pre_save_eq h
  obtain ⟨_, _, hgen⟩ := allocate_loop_sound ha
  obtain ⟨m, hm, hi⟩ := hgen hid
  obtain ⟨hn, _, hj⟩ := guid_loop_sound hg
  subst hr
  refine ⟨⟨m, hm, hi⟩, ?_, hj hguid⟩
  intro hEq
  exact hn (by rw [show g1 = inst.guid from hEq]; exact hguid)

/-- Witness for C8: re-saving `sampleNote` against the table holding only
its own row `(1, "g")` moves the id to 2 = MAX+1 and stores the freshly
generated guid `"h"`. -/
theorem note_resave_matches_itself_witness :
    notes_pre_save (fun s => s) (fun _ => 0) 100 (fun _ => "h") 3
        [NoteRow.mk 1 "g"] sampleNote = some sampleNoteResaved ∧
    sampleNote.id ∈ noteIds [NoteRow.mk 1 "g"] ∧
    sampleNote.guid ∈ noteGuids [NoteRow.mk 1 "g"] ∧
    sampleNoteResaved.guid ≠ sampleNote.guid ∧
    sampleNoteResaved.id = 2 := by
  have h : notes_pre_save (fun s => s) (fun _ => 0) 100 (fun _ => "h") 3
      [NoteRow.mk 1 "g"] sampleNote = some sampleNoteResaved := by rfl
  have hid : sampleNote.id ∈ noteIds [NoteRow.mk 1 "g"] := by decide
  have hguid : sampleNote.guid ∈ noteGuids [NoteRow.mk 1 "g"] := by decide
  have hres := note_resave_matches_itself (fun s => s) (fun _ => 0) 100
    (fun _ => "h") 3 [NoteRow.mk 1 "g"] sampleNote sampleNoteResaved h
    hid hguid
  exact ⟨h, hid, hguid, hres.2.1, rfl⟩

/-- Claim C7: on every completed Card save the hook stamps `mod` with the
current clock value and defaults `due` to the owning note's id exactly when
`due` was unset (`None`); a caller-supplied `due` is kept. -/
theorem card_save_stamps_mod_defaults_due :
    ∀ (now : Int) (fuel : Nat) (ids : List Int) (inst r : Card),
      cards_pre_save now fuel ids inst = some r →
      r.mod = now ∧
      (inst.due = none → r.due = some inst.nid) ∧
      (∀ d, inst.due = some d → r.due = some d) := by
  intro now fuel ids inst r h
  cases ha : allocate_loop ids fuel inst.id with
  | none => simp only [cards_pre_save, ha] at h; exact Option.noConfusion h
  | some newId =>
    simp only [cards_pre_save, ha, Option.some.injEq] at h
    subst h
    refine ⟨rfl, fun hd => ?_, fun d hd => ?_⟩
    · show (match inst.due with
            | none => some inst.nid
            | some d => some d) = some inst.nid
      rw [hd]
    · show (match inst.due with
            | none => some inst.nid
            | some d => some d) = some d
      rw [hd]

/-- Witness for C7: `sampleCard` has `due` unset and `nid = 12345`; the
saved row carries `mod = 7` and `due = 12345`. -/
theorem card_save_stamps_mod_defaults_due_witness :
    cards_pre_save 7 2 [] sampleCard = some sampleCardSaved ∧
    sampleCard.due = none ∧ sampleCard.nid = 12345 ∧
    sampleCardSaved.mod = 7 ∧ sampleCardSaved.due = some 12345 := by
  have h : cards_pre_save 7 2 [] sampleCard = some sampleCardSaved := by rfl
  have hres := card_save_stamps_mod_defaults_due 7 2 [] sampleCard
    sampleCardSaved h
  exact ⟨h, rfl, rfl, hres.1, hres.2.1 rfl⟩

/-- Claim C10: a completed Revlog save changes at most the `id` column:
`cid`, `usn`, `ease`, `ivl`, `lastIvl`, `factor`, `time` and `type` are
stored exactly as supplied, and no modification timestamp exists or is
stamped. -/
theorem revlog_save_touches_only_id :
    ∀ (fuel : Nat) (ids : List Int) (inst r : RevlogEntry),
      revlog_pre_save fuel ids inst = some r →
      r.cid = inst.cid ∧ r.usn = inst.usn ∧ r.ease = inst.ease ∧
      r.ivl = inst.ivl ∧ r.lastIvl = inst.lastIvl ∧
      r.factor = inst.factor ∧ r.time = inst.time ∧ r.type = inst.type := by
  intro fuel ids inst r h
  cases ha : allocate_loop ids fuel inst.id with
  | none => simp only [revlog_pre_save, ha] at h; exact Option.noConfusion h
  | some newId =>
    simp only [revlog_pre_save, ha, Option.some.injEq] at h
    subst h
    exact ⟨rfl, rfl, rfl, rfl, rfl, rfl, rfl, rfl⟩

/-- Witness for C10: saving `sampleRev` against an empty table keeps every
field other than `id` (here even `id` is free, so the row is unchanged). -/
theorem revlog_save_touches_only_id_witness :
    revlog_pre_save 2 [] sampleRev = some sampleRev ∧
    sampleRev.cid = 21 ∧ sampleRev.time = 6000 := by
  have h : revlog_pre_save 2 [] sampleRev = some sampleRev := by rfl
  have hres := revlog_save_touches_only_id 2 [] sampleRev sampleRev h
  exact ⟨h, hres.1.trans rfl, hres.2.2.2.2.2.2.1.trans rfl⟩

/-! ## Lemmas about the string codecs -/

theorem pySplit_ne_nil {sep : Char} (s : PyStr) : pySplit sep s ≠ [] := by
  cases s with
  | nil => simp [pySplit]
  | cons c cs => simp only [pySplit]; split <;> simp

theorem pySplit_no_sep {sep : Char} : ∀ {x : PyStr}, sep ∉ x →
    pySplit sep x = [x] := by
  intro x
  induction x with
  | nil => intro _; rfl
  | cons c cs ih =>
    intro h
    have hc : ¬ (c = sep) := by
      intro hEq
      exact h (by rw [hEq]; exact List.mem_cons_self sep cs)
    have hcs : sep ∉ cs := fun hm => h (List.mem_cons_of_mem c hm)
    rw [pySplit, if_neg hc, ih hcs]
    rfl

theorem pySplit_append {sep : Char} {t : PyStr} : ∀ {x : PyStr}, sep ∉ x →
    pySplit sep (x ++ sep :: t) = x :: pySplit sep t := by
  intro x
  induction x with
  | nil => simp [pySplit]
  | cons c cs ih =>
    intro h
    have hc : ¬ (c = sep) := by
      intro hEq
      exact h (by rw [hEq]; exact List.mem_cons_self sep cs)
    have hcs : sep ∉ cs := fun hm => h (List.mem_cons_of_mem c hm)
    rw [List.cons_append, pySplit, if_neg hc, ih hcs]
    rfl

theorem pySplit_pyJoin {sep : Char} : ∀ {L : List PyStr}, L ≠ [] →
    (∀ x ∈ L, sep ∉ x) → pySplit sep (pyJoin sep L) = L := by
  intro L
  induction L with
  | nil => intro h _; exact absurd rfl h
  | cons x L ih =>
    intro _ hmem
    cases L with
    | nil => exact pySplit_no_sep (hmem x (by simp))
    | cons y L2 =>
      rw [pyJoin, pySplit_append (hmem x (by simp)),
        ih (by simp) (fun z hz => hmem z (List.mem_cons_of_mem x hz))]

theorem dropWhile_eq_self_of_head {p : Char → Bool} {s : PyStr}
    (h : ∀ c, s.head? = some c → p c = false) : s.dropWhile p = s := by
  cases s with
  | nil => rfl
  | cons c cs => rw [List.dropWhile_cons, h c rfl]; simp

theorem pyStrip_eq_self {s : PyStr}
    (h1 : ∀ c, s.head? = some c → pyIsSpace c = false)
    (h2 : ∀ c, s.getLast? = some c → pyIsSpace c = false) : pyStrip s = s := by
  unfold pyStrip
  rw [dropWhile_eq_self_of_head h1]
  rw [dropWhile_eq_self_of_head
    (fun c hc => h2 c (by rwa [List.head?_reverse] at hc))]
  exact List.reverse_reverse s

theorem pyJoin_ne_nil {sep : Char} {x : PyStr} {L : List PyStr}
    (hx : x ≠ []) : pyJoin sep (x :: L) ≠ [] := by
  cases L with
  | nil => exact hx
  | cons y L2 => simp [pyJoin]

theorem pyJoin_head? {sep : Char} {x : PyStr} {L : List PyStr}
    (hx : x ≠ []) : (pyJoin sep (x :: L)).head? = x.head? := by
  cases L with
  | nil => rfl
  | cons y L2 =>
    rw [pyJoin]
    cases x with
    | nil => exact absurd rfl hx
    | cons c cs => rfl

theorem getLast?_cons_of_ne_nil {α : Type} {a : α} {l : List α}
    (h : l ≠ []) : (a :: l).getLast? = l.getLast? := by
  cases l with
  | nil => exact absurd rfl h
  | cons b l2 => exact List.getLast?_cons_cons

theorem pyJoin_getLast? {sep : Char} : ∀ {L : List PyStr} {y : PyStr},
    (∀ t ∈ L, t ≠ []) → L.getLast? = some y →
    (pyJoin sep L).getLast? = y.getLast? := by
  intro L
  induction L with
  | nil => intro y _ h; cases h
  | cons x L ih =>
    intro y hmem hy
    cases L with
    | nil =>
      have hxy : x = y := by simpa using hy
      rw [hxy]
      rfl
    | cons z L2 =>
      have hy2 : (z :: L2).getLast? = some y := by
        rwa [List.getLast?_cons_cons] at hy
      have hz : z ≠ [] := hmem z (by simp)
      have hj := ih (fun t ht => hmem t (List.mem_cons_of_mem x ht)) hy2
      rw [pyJoin, List.getLast?_append,
        getLast?_cons_of_ne_nil (pyJoin_ne_nil hz), hj]
      cases hyl : y.getLast? with
      | none =>
        rw [List.getLast?_eq_none_iff] at hyl
        obtain ⟨hne, hyeq⟩ := List.mem_getLast?_eq_getLast
          (show y ∈ (z :: L2).getLast? from hy2)
        have hymem : y ∈ z :: L2 := by rw [hyeq]; exact List.getLast_mem hne
        exact absurd hyl (hmem y (List.mem_cons_of_mem x hymem))
      | some c => rfl

/-- Claim C5: the ordered-list codec round-trips: whenever
`ListField.db_value` encodes `L` (elements free of the 0x1F separator) to a
string, decoding that string gives back `L`; the only input encoded to the
null representation is the empty list, and the empty list is encoded to
null, never to a joined string. -/
theorem list_codec_roundtrip :
    (∀ (L : List PyStr), (∀ x ∈ L, usep ∉ x) →
      (∀ enc, ListField.db_value L = some enc →
        ListField.python_value enc = L) ∧
      (ListField.db_value L = none → L = [])) ∧
    ListField.db_value [] = none := by
  constructor
  · intro L hmem
    constructor
    · intro enc henc
      unfold ListField.db_value at henc
      by_cases hL : L = []
      · rw [if_pos hL] at henc; cases henc
      · rw [if_neg hL] at henc
        injection henc with henc
        rw [← henc]
        exact pySplit_pyJoin hL hmem
    · intro hnone
      by_cases hL : L = []
      · exact hL
      · unfold ListField.db_value at hnone
        rw [if_neg hL] at hnone
        cases hnone
  · rfl

/-- Witness for C5 at `L = ["a", "b"]`: encoding joins with 0x1F and
decoding the result restores `L`. -/
theorem list_codec_roundtrip_witness :
    ListField.db_value [['a'], ['b']] = some ['a', '\x1f', 'b'] ∧
    ListField.python_value ['a', '\x1f', 'b'] = [['a'], ['b']] := by
  refine ⟨rfl, ?_⟩
  exact (list_codec_roundtrip.1 [['a'], ['b']] (by decide)).1
    ['a', '\x1f', 'b'] rfl

/-- Claim C6 is refuted on this input: `["\t"]` is a non-empty sequence of
non-empty strings containing no space character, yet decoding its encoding
yields `[""]` (the tab is eaten by `strip()`), which is not a permutation
of `["\t"]`. -/
theorem tag_codec_roundtrip_counterexample :
    (['\t'] : PyStr) ≠ [] ∧ ' ' ∉ (['\t'] : PyStr) ∧
    TagField.python_value (TagField.db_value [['\t']]) = [[]] ∧
    ¬ (TagField.python_value (TagField.db_value [['\t']])).Perm [['\t']] := by
  refine ⟨by decide, by decide, by decide, by decide⟩

/-- Claim C6 (amended): for every non-empty sequence of non-empty,
space-free tags whose first tag does not begin with a Python-whitespace
character and whose last tag does not end with one, decoding the encoding
restores the sequence exactly (hence up to order); decoding the empty
string yields the one-element sequence containing the empty string. -/
theorem tag_codec_roundtrip_amended :
    (∀ (T : List PyStr), T ≠ [] →
      (∀ t ∈ T, t ≠ [] ∧ ' ' ∉ t) →
      (∀ c, T.headI.head? = some c → pyIsSpace c = false) →
      (∀ y c, T.getLast? = some y → y.getLast? = some c →
        pyIsSpace c = false) →
      TagField.python_value (TagField.db_value T) = T) ∧
    TagField.python_value [] = [[]] := by
  constructor
  · intro T hT hmem hfirst hlast
    cases T with
    | nil => exact absurd rfl hT
    | cons x rest =>
      unfold TagField.db_value TagField.python_value
      have hx : x ≠ [] := (hmem x (by simp)).1
      obtain ⟨y, hy⟩ : ∃ y, (x :: rest).getLast? = some y := by
        cases rest with
        | nil => exact ⟨x, rfl⟩
        | cons z L2 =>
          exact ⟨(z :: L2).getLast (by simp),
            by rw [List.getLast?_cons_cons]; exact List.getLast?_eq_getLast _ _⟩
      have hstrip : pyStrip (pyJoin ' ' (x :: rest)) = pyJoin ' ' (x :: rest) := by
        apply pyStrip_eq_self
        · intro c hc
          rw [pyJoin_head? hx] at hc
          exact hfirst c (by simpa using hc)
        · intro c hc
          rw [pyJoin_getLast? (fun t ht => (hmem t ht).1) hy] at hc
          exact hlast y c hy hc
      rw [hstrip]
      exact pySplit_pyJoin (by simp) (fun t ht => (hmem t ht).2)
  · rfl

/-- Witness for the amended C6 at `T = ["a", "b"]`. -/
theorem tag_codec_roundtrip_amended_witness :
    TagField.db_value [['a'], ['b']] = ['a', ' ', 'b'] ∧
    TagField.python_value ['a', ' ', 'b'] = [['a'], ['b']] := by
  refine ⟨rfl, ?_⟩
  have h := tag_codec_roundtrip_amended.1 [['a'], ['b']] (by decide)
    (by decide)
    (by intro c hc; simp at hc; rw [← hc]; decide)
    (by intro y c hy hc; simp at hy; rw [← hy] at hc; simp at hc;
        rw [← hc]; decide)
  exact h

/-! ## Lemmas about the JSON duplicate-name scan -/

theorem checkNames_ok_iff : ∀ (vals : List JVal) (seen : List JVal),
    checkNames seen vals = Except.ok () ↔
      ((vals.filterMap extractName).Nodup ∧
        ∀ n ∈ vals.filterMap extractName, n ∉ seen) := by
  intro vals
  induction vals with
  | nil => intro seen; simp [checkNames]
  | cons v rest ih =>
    intro seen
    cases he : extractName v with
    | none =>
      rw [show checkNames seen (v :: rest) = checkNames seen rest by
        rw [checkNames, he]]
      rw [ih seen, List.filterMap_cons, he]
    | some n =>
      rw [show checkNames seen (v :: rest)
          = if n ∈ seen then Except.error "Duplicate name"
            else checkNames (n :: seen) rest by rw [checkNames, he]]
      rw [List.filterMap_cons, he]
      by_cases hn : n ∈ seen
      · rw [if_pos hn]
        constructor
        · intro h; cases h
        · rintro ⟨_, hall⟩
          exact absurd hn (hall n (List.mem_cons_self n _))
      · rw [if_neg hn, ih (n :: seen)]
        constructor
        · rintro ⟨hnd, hall⟩
          have hnmem : n ∉ rest.filterMap extractName := by
            intro hmem
            exact (hall n hmem) (List.mem_cons_self n seen)
          refine ⟨List.nodup_cons.mpr ⟨hnmem, hnd⟩, ?_⟩
          intro m hm
          rcases List.mem_cons.mp hm with hEq | hmem
          · rw [hEq]; exact hn
          · intro hseen
            exact (hall m hmem) (List.mem_cons_of_mem n hseen)
        · rintro ⟨hnd, hall⟩
          obtain ⟨hnmem, hnd2⟩ := List.nodup_cons.mp hnd
          refine ⟨hnd2, ?_⟩
          intro m hm hm2
          rcases List.mem_cons.mp hm2 with hEq | hseen
          · rw [hEq] at hm; exact hnmem hm
          · exact (hall m (List.mem_cons_of_mem n hm)) hseen

theorem checkNames_ok_or_error (seen vals : List JVal) :
    checkNames seen vals = Except.ok () ∨
      ∃ e, checkNames seen vals = Except.error e := by
  cases h : checkNames seen vals with
  | ok u => cases u; exact Or.inl rfl
  | error e => exact Or.inr ⟨e, rfl⟩

theorem db_value_error_iff (dumps : List (String × JVal) → String)
    (value : List (String × JVal)) :
    (∃ e, JSONField.db_value dumps value = Except.error e) ↔
      ¬ ((value.map Prod.snd).filterMap extractName).Nodup := by
  constructor
  · rintro ⟨e, he⟩ hnd
    have hok : checkNames [] (value.map Prod.snd) = Except.ok () :=
      (checkNames_ok_iff _ []).mpr ⟨hnd, by simp⟩
    unfold JSONField.db_value at he
    rw [hok] at he
    cases he
  · intro hnd
    rcases checkNames_ok_or_error [] (value.map Prod.snd) with hok | ⟨e, he⟩
    · rw [checkNames_ok_iff] at hok
      exact absurd hok.1 hnd
    · exact ⟨e, by unfold JSONField.db_value; rw [he]⟩

theorem nodup_filterMap_names_iff (vals : List JVal) :
    (vals.filterMap extractName).Nodup ↔
      ∀ (i j : Fin vals.length), i < j → ∀ n,
        extractName (vals.get i) = some n →
        extractName (vals.get j) = some n → False := by
  constructor
  · intro h i j hij n h1 h2
    have hp := List.pairwise_filterMap.mp h
    have hget := List.pairwise_iff_get.mp hp i j hij
    exact hget n (Option.mem_def.mpr h1) n (Option.mem_def.mpr h2) rfl
  · intro h
    show List.Pairwise (fun a b => a ≠ b) (vals.filterMap extractName)
    apply List.pairwise_filterMap.mpr
    apply List.pairwise_iff_get.mpr
    intro i j hij
    intro b hb b2 hb2 hEq
    rw [← hEq] at hb2
    exact h i j hij b (Option.mem_def.mp hb) (Option.mem_def.mp hb2)

/-- Claim C4: encoding a namespaced-object collection whose embedded named
objects carry pairwise distinct names succeeds, producing exactly the
serialized text of the unmodified collection (so decoding with the inverse
`loads` reproduces it); two embedded objects sharing a name make the encode
fail with the duplicate-name error instead of producing any output. -/
theorem json_duplicate_name_check :
    ∀ (dumps : List (String × JVal) → String)
      (loads : String → List (String × JVal))
      (value : List (String × JVal)),
      (¬ ((value.map Prod.snd).filterMap extractName).Nodup →
        ∃ e, JSONField.db_value dumps value = Except.error e) ∧
      (((value.map Prod.snd).filterMap extractName).Nodup →
        JSONField.db_value dumps value = Except.ok (dumps value) ∧
        (loads (dumps value) = value →
          JSONField.python_value loads (dumps value) = value)) := by
  intro dumps loads value
  constructor
  · intro hdup
    exact (db_value_error_iff dumps value).mpr hdup
  · intro hnd
    have hok : checkNames [] (value.map Prod.snd) = Except.ok () :=
      (checkNames_ok_iff _ []).mpr ⟨hnd, by simp⟩
    exact ⟨by unfold JSONField.db_value; rw [hok], fun hr => hr⟩

/-- Witness for C4: the two-model collection with names `"Basic"` and
`"Cloze"` encodes and round-trips; the collection with the name `"Basic"`
twice is rejected. -/
theorem json_duplicate_name_check_witness :
    JSONField.db_value (fun _ => "s") sampleModels = Except.ok "s" ∧
    JSONField.python_value (fun _ => sampleModels) "s" = sampleModels ∧
    JSONField.db_value (fun _ => "s") dupModels
      = Except.error "Duplicate name" := by
  have h := (json_duplicate_name_check (fun _ => "s")
    (fun _ => sampleModels) sampleModels).2 (by decide)
  exact ⟨h.1, h.2 rfl, by rfl⟩

/-- Claim C9: the duplicate-name scan of `JSONField.db_value` rejects the
collection exactly when two distinct top-level values are both mappings
holding a `name` key with equal name values; names inside nested objects,
names of non-mapping values, and coincidences between a top-level mapping
and a nested object never trigger it (the scan consults nothing else). -/
theorem json_duplicate_name_iff :
    ∀ (dumps : List (String × JVal) → String)
      (value : List (String × JVal)),
      (∃ e, JSONField.db_value dumps value = Except.error e) ↔
      (∃ (i j : Fin (value.map Prod.snd).length) (n : JVal), i < j ∧
        extractName ((value.map Prod.snd).get i) = some n ∧
        extractName ((value.map Prod.snd).get j) = some n) := by
  intro dumps value
  rw [db_value_error_iff dumps value]
  rw [nodup_filterMap_names_iff (value.map Prod.snd)]
  constructor
  · intro hne
    by_contra hex
    apply hne
    intro i j hij n hA hB
    exact hex ⟨i, j, n, hij, hA, hB⟩
  · rintro ⟨i, j, n, hij, hA, hB⟩ hall
    exact hall i j hij n hA hB

end AnkiDb
